import Mathlib

/-!
# SkillForge MCP bridge — verification of the sync / enrichment / invocation core

Shallow embedding of the `skillforge-mcp` TypeScript sources:

* `src/index.ts` — the MCP server: `syncSkills` (tool-name derivation, tool
  registration, `registeredTools` bookkeeping, invocation handler, periodic
  scheduling via `setInterval`).
* the `BlockchainSkillClient` file — `listSkills`, `enrichSkillWithMetadata`
  (metadata cache), `fetchIPFSMetadata` (gateway fallback).

JavaScript strings are modelled as Lean `String` / `List Char`; `bigint` as
`Nat` (registry words are unsigned); JS `undefined`-able fields as `Option`;
fallible external calls as oracle functions supplied as parameters, so that
every embedded operation is a total Lean function — the "never throws"
contracts correspond to totality of the embedding, with every catch branch of
the source represented explicitly.
-/

namespace SkillForge

/-! ## Tool-name derivation (src/index.ts, lines 34–37)

`skill.name.toLowerCase().replace(/\s+/g, "-").replace(/[^a-z0-9-]/g, "")`.

`jsToLower` models `String.prototype.toLowerCase` on the ASCII range (the
only range the spec and the registry names exercise); `isJsWs` is the
ECMAScript `\s` character class. -/

def jsToLower (c : Char) : Char :=
  if 'A' ≤ c ∧ c ≤ 'Z' then Char.ofNat (c.toNat + 32) else c

def isJsWs (c : Char) : Bool :=
  let n := c.toNat
  (n == 0x20) || (n == 0x9) || (n == 0xA) || (n == 0xB) || (n == 0xC) ||
  (n == 0xD) || (n == 0xA0) || (n == 0x1680) ||
  ((0x2000 ≤ n) && (n ≤ 0x200A)) ||
  (n == 0x2028) || (n == 0x2029) || (n == 0x202F) || (n == 0x205F) ||
  (n == 0x3000) || (n == 0xFEFF)

/-- One left-to-right scan implementing `.replace(/\s+/g, "-")`: the flag
records whether we are inside a whitespace run whose hyphen was already
emitted. -/
def collapseWsGo : Bool → List Char → List Char
  | _, [] => []
  | inRun, c :: cs =>
    if isJsWs c then
      if inRun then collapseWsGo true cs else '-' :: collapseWsGo true cs
    else c :: collapseWsGo false cs

def collapseWs (l : List Char) : List Char := collapseWsGo false l

def isAllowedChar (c : Char) : Bool :=
  ('a' ≤ c && c ≤ 'z') || ('0' ≤ c && c ≤ '9') || (c == '-')

/-- The tool-name derivation of `syncSkills` (src/index.ts lines 34–37):
lowercase, then replace each whitespace run with `-`, then strip every
character outside `[a-z0-9-]`. -/
def deriveName (displayName : String) : String :=
  ((collapseWs (displayName.data.map jsToLower)).filter isAllowedChar).asString

/-- Modelled from the spec: "lowercase, collapse/replace whitespace runs with
a single hyphen, then remove every character outside `[a-z0-9-]`" — the
whitespace-run collapse, written by consuming a maximal run at once.  Used
only to compare the spec wording with the source derivation. -/
def collapseWsSpec : List Char → List Char
  | [] => []
  | c :: cs =>
    if isJsWs c then '-' :: collapseWsSpec (cs.dropWhile isJsWs)
    else c :: collapseWsSpec cs
termination_by l => l.length
decreasing_by
  · have hle : ∀ m : List Char, (m.dropWhile isJsWs).length ≤ m.length := by
      intro m
      induction m with
      | nil => simp [List.dropWhile]
      | cons d ds ih =>
        by_cases hd : isJsWs d
        · simp [List.dropWhile, hd]; omega
        · simp [List.dropWhile, hd]
    simp only [List.length_cons]
    exact Nat.lt_succ_of_le (hle cs)
  · simp

/-- Modelled from the spec: the deriver as §4.3 words it. -/
def deriveNameSpec (displayName : String) : String :=
  ((collapseWsSpec (displayName.data.map jsToLower)).filter isAllowedChar).asString

/-! ## Data model (BlockchainSkillClient)

`SkillRegistryData` is the raw registry row; `viem` may decode a row either as
a named-field object or as a positional tuple, and `enrichSkillWithMetadata`
probes `rawSkill.skillId !== undefined ? rawSkill.skillId : rawSkill[0]` etc.
`RawSkill` records which of the two decodings was received; both carry the six
registry columns in ABI order. `bigint` registry words are modelled as `Nat`. -/

structure SkillRegistryData where
  skillId : Nat
  creator : String
  pricePerUse : Nat
  metadataURI : String
  isActive : Bool
  totalCalls : Nat
deriving DecidableEq, Repr

inductive RawSkill
  | named (f : SkillRegistryData)
  | tuple (f : SkillRegistryData)
deriving DecidableEq, Repr

/-- The shape-tolerant extraction of lines 191–204: for a named decoding the
named field is defined and is used; for a tuple decoding the named probe is
`undefined` and the positional entry (same column) is used. -/
def RawSkill.fields : RawSkill → SkillRegistryData
  | .named f => f
  | .tuple f => f

/-- `SkillWithMetadata`: registry columns plus resolved metadata fields. -/
structure SkillWithMetadata where
  skillId : Nat
  creator : String
  pricePerUse : Nat
  metadataURI : String
  isActive : Bool
  totalCalls : Nat
  name : String
  description : String
  category : String
  image : Option String := none
  tags : List String
deriving DecidableEq, Repr

/-- The JSON document an IPFS gateway may return: every field optional
(`undefined` when absent). -/
structure IPFSMetadata where
  name : Option String := none
  description : Option String := none
  category : Option String := none
  image : Option String := none
  tags : Option (List String) := none
deriving DecidableEq, Repr

/-! ## Metadata fetcher (`fetchIPFSMetadata`, client lines 230–284)

The outside world is an oracle `gatewayNet : String → FetchOutcome` giving,
for each gateway URL, what the `fetch` + `JSON.parse` attempt at that URL
does: throw (network error / abort timeout), return a non-2xx status, return
2xx with an unparsable body, or return 2xx with a parsed JSON document. -/

inductive FetchOutcome
  | netError (msg : String)
  | httpError (status : Nat)
  | parseError
  | success (m : IPFSMetadata)
deriving DecidableEq, Repr

def FetchOutcome.isSuccess : FetchOutcome → Bool
  | .success _ => true
  | _ => false

/-- First component of JS `l.split(sep)` decomposition: `none` when `sep`
does not occur (JS `includes` false), else the part before the first
occurrence and the part after it. -/
def splitFirst (sep : List Char) : List Char → Option (List Char × List Char)
  | [] => if sep.isEmpty then some ([], []) else none
  | c :: t =>
    if sep.isPrefixOf (c :: t) then some ([], (c :: t).drop sep.length)
    else match splitFirst sep t with
      | none => none
      | some (a, b) => some (c :: a, b)

/-- Hash normalization (lines 234–239): strip a leading `ipfs://` (JS
`replace` with a string pattern replaces only the first occurrence, which is
the prefix here), else take `split("/ipfs/")[1]` when the marker occurs (the
segment between the first and second occurrence), else use the URI verbatim. -/
def normalizeHash (metadataURI : String) : String :=
  let l := metadataURI.data
  if ("ipfs://".data).isPrefixOf l then (l.drop 7).asString
  else
    match splitFirst ("/ipfs/".data) l with
    | none => metadataURI
    | some (_, rest) =>
      match splitFirst ("/ipfs/".data) rest with
      | none => rest.asString
      | some (a, _) => a.asString

/-- The ordered gateway candidate list (lines 242–246). -/
def gateways (hash : String) : List String :=
  [ "https://gateway.pinata.cloud/ipfs/" ++ hash,
    "https://ipfs.io/ipfs/" ++ hash,
    "https://dweb.link/ipfs/" ++ hash ]

/-- The `for (const url of gateways)` loop (lines 248–275): every non-success
outcome (network error, non-2xx, JSON-parse failure) falls through to the next
candidate; the first success returns immediately. Also returns the list of
URLs actually requested, in order. -/
def tryGateways (net : String → FetchOutcome) : List String → Option IPFSMetadata × List String
  | [] => (none, [])
  | url :: rest =>
    match net url with
    | .success m => (some m, [url])
    | _ =>
      let r := tryGateways net rest
      (r.1, url :: r.2)

/-- `fetchIPFSMetadata` (lines 230–284): normalize, build candidates, loop;
all candidates failing yields `none` (the `return null` at line 278).  The
embedding is a total function: the outer try/catch of the source guarantees
the JS function never rejects, and correspondingly no error channel exists
here. -/
def fetchIPFSMetadata (net : String → FetchOutcome) (metadataURI : String) :
    Option IPFSMetadata × List String :=
  tryGateways net (gateways (normalizeHash metadataURI))

/-! ## Enrichment cache (`enrichSkillWithMetadata`, client lines 188–228)

`metadataCache : Map<string, SkillWithMetadata>` keyed by
`skillId.toString()`; modelled as an association list whose `set` conses the
new binding in front (lookup finds the latest binding, matching `Map`). -/

abbrev MetadataCache := List (String × SkillWithMetadata)

def cacheGet : MetadataCache → String → Option SkillWithMetadata
  | [], _ => none
  | (k, v) :: rest, key => if k = key then some v else cacheGet rest key

def cacheSet (cache : MetadataCache) (key : String) (v : SkillWithMetadata) :
    MetadataCache :=
  (key, v) :: cache

/-- JS `x || d` for a possibly-`undefined` string `x`: `undefined` and the
empty string are falsy. -/
def jsOrDefault (x : Option String) (d : String) : String :=
  match x with
  | none => d
  | some s => if s = "" then d else s

/-- Result of one `enrichSkillWithMetadata` call: the skill returned, the
cache afterwards, and the metadata URIs for which a gateway fetch sequence was
started (empty on a cache hit or an empty pointer). -/
structure EnrichResult where
  skill : SkillWithMetadata
  cache : MetadataCache
  fetched : List String
deriving DecidableEq, Repr

/-- `enrichSkillWithMetadata` (lines 188–228): extract the six registry
columns from either decoding shape (exact `BigInt` coercion — no precision
loss here), serve a cache hit without any fetch, otherwise build the default
record, overlay fetched metadata when the pointer is non-empty and the fetch
succeeds (`||`-falsy semantics for `name`/`description`/`category`, direct
assignment for `image`, `|| []` for `tags`), store, and return. -/
def enrichSkillWithMetadata (net : String → FetchOutcome) (cache : MetadataCache)
    (rawSkill : RawSkill) : EnrichResult :=
  let f := rawSkill.fields
  let cacheKey := toString f.skillId
  match cacheGet cache cacheKey with
  | some s => ⟨s, cache, []⟩
  | none =>
    let base : SkillWithMetadata :=
      { skillId := f.skillId
        creator := f.creator
        pricePerUse := f.pricePerUse
        metadataURI := f.metadataURI
        isActive := f.isActive
        totalCalls := f.totalCalls
        name := "Skill #" ++ toString f.skillId
        description := "No description available"
        category := "General"
        image := none
        tags := [] }
    if f.metadataURI.length > 0 then
      let skill :=
        match (fetchIPFSMetadata net f.metadataURI).1 with
        | none => base
        | some m =>
          { base with
            name := jsOrDefault m.name base.name
            description := jsOrDefault m.description base.description
            category := jsOrDefault m.category base.category
            image := m.image
            tags := m.tags.getD [] }
      ⟨skill, cacheSet cache cacheKey skill, [f.metadataURI]⟩
    else
      ⟨base, cacheSet cache cacheKey base, []⟩

/-- Sequential elaboration of `Promise.all(rawSkills.map(enrich…))` (line
121): result order matches input order; the cache is threaded through. -/
def enrichAll (net : String → FetchOutcome) (cache : MetadataCache) :
    List RawSkill → List SkillWithMetadata × MetadataCache
  | [] => ([], cache)
  | r :: rs =>
    let e := enrichSkillWithMetadata net cache r
    let rest := enrichAll net e.cache rs
    (e.skill :: rest.1, rest.2)

/-- `listSkills` (client lines 105–134).  The registry read
(`readContract getAllSkills`, including its not-an-array guard) is an outside
call modelled as `Except`: `.error` is any rejection, and the catch at lines
129–133 turns it into an empty list, leaving the cache as it was. -/
def listSkills (net : String → FetchOutcome)
    (registryRead : Except String (List RawSkill)) (cache : MetadataCache) :
    List SkillWithMetadata × MetadataCache :=
  match registryRead with
  | .error _ => ([], cache)
  | .ok rawSkills =>
    let e := enrichAll net cache rawSkills
    (e.1.filter (fun s => s.isActive), e.2)

/-! ## The invocation handler (src/index.ts lines 45–96)

The handler posts `{ skillId: Number(skill.skillId), input, buyer }` and maps
the axios outcome into the MCP result envelope.  `Number(bigint)` is the
ECMAScript conversion of an exact integer to a binary64 float: round to
nearest, ties to even — modelled by `jsNumber` (the float value of a converted
registry word is always a mathematical integer, so `Nat → Nat` suffices). -/

/-- Fuel-driven binary length: `bitLen n` is the number of binary digits of
`n` (0 for 0).  Fuel `n` always suffices since the value halves each step. -/
def bitLenAux : Nat → Nat → Nat
  | 0, _ => 0
  | fuel + 1, n => if n = 0 then 0 else bitLenAux fuel (n / 2) + 1

def bitLen (n : Nat) : Nat := bitLenAux n n

/-- Modelled from the spec of ECMAScript `Number(bigint)` (the conversion at
src/index.ts line 53, outside this repository's sources): integers of at most
53 bits are exact; larger integers are rounded to the nearest multiple of
`2 ^ (bitLen n - 53)`, ties to the even quotient. -/
def jsNumber (n : Nat) : Nat :=
  if n ≤ 2 ^ 53 then n
  else
    let e := bitLen n - 53
    let q := n / 2 ^ e
    let r := n % 2 ^ e
    let half := 2 ^ (e - 1)
    if r < half then q * 2 ^ e
    else if half < r then (q + 1) * 2 ^ e
    else if q % 2 = 0 then q * 2 ^ e else (q + 1) * 2 ^ e

/-- The JSON body posted to `<apiUrl>/api/agent` (lines 52–56). -/
structure PostBody where
  skillId : Nat
  input : String
  buyer : String
deriving DecidableEq, Repr

def handlerPost (buyerAccount : String) (skill : SkillWithMetadata)
    (input : String) : PostBody :=
  { skillId := jsNumber skill.skillId, input := input, buyer := buyerAccount }

/-- What `await axios.post` can do, as classified by the catch block at lines
69–84: succeed with a response body (already pretty-printed for the model);
reject with an axios `ECONNREFUSED` error; reject with an error carrying a
structured `response.data.error` string (plus its own `.message`); reject with
any other `Error`; throw a string; or throw a non-`Error`, non-string value
(whose `JSON.stringify` image is carried). -/
inductive BackendOutcome
  | ok (pretty : String)
  | connRefused
  | responseError (errBody : String) (message : String)
  | otherError (message : String)
  | thrownString (s : String)
  | thrownOther (stringified : String)
deriving DecidableEq, Repr

/-- The MCP tool-result envelope `{ content: [{type, text}], isError? }`. -/
structure ContentItem where
  type : String
  text : String
deriving DecidableEq, Repr

structure ToolResult where
  content : List ContentItem
  isError : Option Bool := none
deriving DecidableEq, Repr

/-- The error classification of lines 71–84.  `apiUrlEnv` is
`process.env.SKILLFORGE_API_URL` (`none` = unset); the unreachable message
uses `|| "localhost:3000"` (JS falsy: unset or empty). -/
def classifyMessage (apiUrlEnv : Option String) : BackendOutcome → String
  | .ok _ => "Unknown error"
  | .connRefused =>
      "Backend server unreachable at " ++ jsOrDefault apiUrlEnv "localhost:3000" ++
      ". Ensure the SkillForge app is running."
  | .responseError errBody _ => errBody
  | .otherError message => message
  | .thrownString s => s
  | .thrownOther stringified => stringified

def BackendOutcome.isOk : BackendOutcome → Bool
  | .ok _ => true
  | _ => false

/-- The handler closure (lines 45–96): post the body, then either wrap the
response or classify the failure into an error-flagged envelope.  `backend` is
the oracle for the axios call, keyed by the posted body.  The embedding is
total: every outcome yields an envelope, mirroring the catch-all. -/
def invocationHandler (apiUrlEnv : Option String) (buyerAccount : String)
    (skill : SkillWithMetadata) (input : String)
    (backend : PostBody → BackendOutcome) : ToolResult :=
  match backend (handlerPost buyerAccount skill input) with
  | .ok pretty =>
    { content := [⟨"text", "Skill executed successfully!\nResult:\n" ++ pretty⟩]
      isError := none }
  | outcome =>
    { content := [⟨"text",
        "Error executing skill \"" ++ skill.name ++ "\": " ++
          classifyMessage apiUrlEnv outcome⟩]
      isError := some true }

def resultText (r : ToolResult) : String := (r.content.headD ⟨"text", ""⟩).text

/-- `s` contains `pat` as a contiguous substring. -/
def strContains (s pat : String) : Prop :=
  ∃ a b : List Char, s.data = a ++ pat.data ++ b

/-! ## The sync pass (`syncSkills`, src/index.ts lines 24–109)

The MCP server object itself is outside this repository; per the spec (§3,
§6) its `server.tool(name, description, schema, handler)` call is
idempotent-by-name: registering an already-known name re-binds it to the new
description and handler.  A binding is identified by the description string
and the `SkillWithMetadata` snapshot the handler closure captured. -/

structure ToolBinding where
  description : String
  boundSkill : SkillWithMetadata
deriving DecidableEq, Repr

abbrev ToolMap := List (String × ToolBinding)

/-- Modelled from the spec: `server.tool` of the MCP SDK (not under `src/`),
"the protocol layer's registration call is idempotent-by-name" — the latest
registration under a name replaces any earlier binding for that name. -/
def serverToolRegister (tools : ToolMap) (name : String) (b : ToolBinding) :
    ToolMap :=
  (name, b) :: tools.filter (fun kv => kv.1 ≠ name)

/-- Bridge-process state touched by a sync pass: the MCP server's tool map,
the `registeredTools` set (line 22), and the client's metadata cache. -/
structure BridgeState where
  server : ToolMap
  registeredTools : List String
  cache : MetadataCache
deriving DecidableEq, Repr

def initBridgeState : BridgeState := ⟨[], [], []⟩

/-- Accumulator of the `for (const skill of currentSkills)` loop: tool map,
`registeredTools`, and the names logged as `[Sync] Registered new tool`. -/
structure PassAcc where
  server : ToolMap
  registeredTools : List String
  discovered : List String
deriving DecidableEq, Repr

/-- One iteration of the loop (lines 33–103): derive the name, register the
tool with a fresh handler closed over this pass's skill, then add the name to
`registeredTools` (logging it) only if it was not there yet. -/
def processSkill (acc : PassAcc) (skill : SkillWithMetadata) : PassAcc :=
  let toolName := deriveName skill.name
  let b : ToolBinding :=
    ⟨skill.description ++ "\n(SkillForge ID: " ++ toString skill.skillId ++ ")",
     skill⟩
  let server := serverToolRegister acc.server toolName b
  if toolName ∈ acc.registeredTools then
    ⟨server, acc.registeredTools, acc.discovered⟩
  else
    ⟨server, toolName :: acc.registeredTools, acc.discovered ++ [toolName]⟩

/-- `{ registeredCount, activeCount }` — the record the spec contract says a
pass returns. -/
structure SyncCounts where
  registeredCount : Nat
  activeCount : Nat
deriving DecidableEq, Repr

/-- Everything one `syncSkills()` call produces: the state afterwards, the
active list the pass observed, the names logged as newly discovered, and the
value of the JS function itself. -/
structure SyncOutcome where
  state : BridgeState
  activeSkills : List SkillWithMetadata
  discovered : List String
  retVal : Option SyncCounts
deriving DecidableEq, Repr

/-- `syncSkills` (lines 24–109): clear the cache, read + enrich + filter via
`listSkills` (which catches its own failures and yields `[]`), loop over the
active skills, log the count.  The body of the source function ends without a
`return` statement, so the call resolves to `undefined`: `retVal := none`.
The surrounding try/catch (lines 25, 106–108) makes the pass total — in the
embedding no step can fail, so the pass always runs to completion. -/
def syncSkills (net : String → FetchOutcome)
    (registryRead : Except String (List RawSkill)) (st : BridgeState) :
    SyncOutcome :=
  let fetched := listSkills net registryRead ([] : MetadataCache)
  let acc := fetched.1.foldl processSkill ⟨st.server, st.registeredTools, []⟩
  { state := ⟨acc.server, acc.registeredTools, fetched.2⟩
    activeSkills := fetched.1
    discovered := acc.discovered
    retVal := none }

/-! ## The sync scheduler (src/index.ts lines 112–117)

`await syncSkills()` once at startup, then `setInterval(syncSkills, 300000)`.
`setInterval` invokes the async function on every tick without awaiting the
previous invocation, and `syncSkills` itself holds no in-flight guard, so the
tick transition below is enabled in every state.  A pass runs its synchronous
prefix — `clearCache()` — immediately, then suspends awaiting the registry
read; `finish` resumes a suspended pass, which repopulates the cache and
registers tools.  `history` records the order of the cache-affecting steps. -/

inductive SyncEvent
  | clearCache (passId : Nat)
  | populate (passId : Nat)
deriving DecidableEq, Repr

structure SchedState where
  inFlight : List Nat
  nextId : Nat
  history : List SyncEvent
deriving DecidableEq, Repr

def initSched : SchedState := ⟨[], 0, []⟩

/-- The scheduler's transitions.  `tick` carries no side condition: the
source checks no guard at the top of `syncSkills` and `setInterval` does not
await, so a timer tick starts a new pass even while others are in flight. -/
inductive SchedStep : SchedState → SchedState → Prop
  | tick (s : SchedState) :
      SchedStep s ⟨s.nextId :: s.inFlight, s.nextId + 1,
        s.history ++ [.clearCache s.nextId]⟩
  | finish (s : SchedState) (pid : Nat) (h : pid ∈ s.inFlight) :
      SchedStep s ⟨s.inFlight.erase pid, s.nextId,
        s.history ++ [.populate pid]⟩

def SchedReachable : SchedState → Prop :=
  Relation.ReflTransGen SchedStep initSched

/-! ## Helper lemmas -/

theorem data_asString (l : List Char) : l.asString.data = l := rfl

set_option maxHeartbeats 2000000 in
theorem collapseWsSpec_nil : collapseWsSpec [] = [] := by rw [collapseWsSpec]

theorem collapseWsSpec_cons_ws (c : Char) (cs : List Char) (h : isJsWs c = true) :
    collapseWsSpec (c :: cs) = '-' :: collapseWsSpec (cs.dropWhile isJsWs) := by
  rw [collapseWsSpec]; simp [h]

theorem collapseWsSpec_cons_nws (c : Char) (cs : List Char) (h : isJsWs c = false) :
    collapseWsSpec (c :: cs) = c :: collapseWsSpec cs := by
  rw [collapseWsSpec]; simp [h]

theorem collapseWsGo_eq_spec (l : List Char) :
    collapseWsGo false l = collapseWsSpec l ∧
    collapseWsGo true l = collapseWsSpec (l.dropWhile isJsWs) := by
  induction l with
  | nil => exact ⟨collapseWsSpec_nil.symm, collapseWsSpec_nil.symm⟩
  | cons c cs ih =>
    by_cases h : isJsWs c
    · constructor
      · rw [collapseWsSpec_cons_ws c cs h]
        simp [collapseWsGo, h, ih.2]
      · simp only [List.dropWhile, h]
        simp [collapseWsGo, h, ih.2]
    · have h' : isJsWs c = false := by simpa using h
      constructor
      · rw [collapseWsSpec_cons_nws c cs h']
        simp [collapseWsGo, h', ih.1]
      · simp only [List.dropWhile, h']
        rw [collapseWsSpec_cons_nws c cs h']
        simp [collapseWsGo, h', ih.1]

theorem deriveName_eq_spec (s : String) : deriveName s = deriveNameSpec s := by
  unfold deriveName deriveNameSpec collapseWs
  rw [(collapseWsGo_eq_spec (s.data.map jsToLower)).1]

/-! ## Claim C3 — the tool-name derivation -/

/-- Claim C3: the tool-name derivation is the pure deterministic function the
spec describes — it lowercases, replaces every maximal whitespace run with one
hyphen, then strips every character outside `[a-z0-9-]` (`deriveNameSpec`
restates that wording and agrees with the source chain everywhere); deriving
twice from the same display name yields the same string; `"Text Tool"`
derives `"text-tool"` and `"Up/Down!!"` derives `"updown"`. -/
theorem deriveName_pure_deterministic :
    (∀ s : String, deriveName s = deriveNameSpec s) ∧
    (∀ s : String, deriveName s = deriveName s) ∧
    deriveName "Text Tool" = "text-tool" ∧
    deriveName "Up/Down!!" = "updown" :=
  ⟨deriveName_eq_spec, fun _ => rfl, by decide, by decide⟩

/-! ## Claim C10 — empty derived identifiers are registered -/

/-- Claim C10: every derived identifier matches `[a-z0-9-]*`, but no minimum
length is enforced: `"!!!"` derives the empty string, and a sync pass over an
active skill named `"!!!"` registers a tool under the empty identifier (it
appears in the server tool map and in `registeredTools`) instead of skipping
the record. -/
theorem deriveName_empty_identifier_registered :
    (∀ s : String, (deriveName s).data.all isAllowedChar = true) ∧
    deriveName "!!!" = "" ∧
    ((syncSkills (fun _ => .success ⟨some "!!!", none, none, none, none⟩)
        (.ok [.named ⟨1, "0xc", 0, "Qm", true, 0⟩])
        initBridgeState).state.registeredTools = [""] ∧
      (syncSkills (fun _ => .success ⟨some "!!!", none, none, none, none⟩)
        (.ok [.named ⟨1, "0xc", 0, "Qm", true, 0⟩])
        initBridgeState).state.server.map Prod.fst = [""]) := by
  refine ⟨?_, by decide, by decide, by decide⟩
  intro s
  simp only [deriveName, data_asString, List.all_eq_true, List.mem_filter]
  intro c hc
  exact hc.2

/-! ## Claim C4 — metadata gateway fallback -/

theorem append_ne_of_length_ne (p q h : String)
    (hne : p.data.length ≠ q.data.length) : p ++ h ≠ q ++ h := by
  intro heq
  apply hne
  have h2 : p.data.length + h.data.length = q.data.length + h.data.length := by
    simpa [String.data_append] using congrArg (fun s => s.data.length) heq
  omega

theorem gateways_pairwise_ne (hash : String) :
    (gateways hash).Pairwise (fun a b => a ≠ b) := by
  simp only [gateways, List.pairwise_cons, List.mem_cons, List.mem_singleton,
    List.not_mem_nil]
  refine ⟨?_, ?_, fun a h => absurd h (by simp), List.Pairwise.nil⟩
  · intro b hb
    rcases hb with hb | hb | hb
    · subst hb; exact append_ne_of_length_ne _ _ _ (by decide)
    · subst hb; exact append_ne_of_length_ne _ _ _ (by decide)
    · exact absurd hb (by simp)
  · intro b hb
    rcases hb with hb | hb
    · subst hb; exact append_ne_of_length_ne _ _ _ (by decide)
    · exact absurd hb (by simp)

theorem tryGateways_all_fail (net : String → FetchOutcome) (urls : List String)
    (h : ∀ url ∈ urls, (net url).isSuccess = false) :
    tryGateways net urls = (none, urls) := by
  induction urls with
  | nil => rfl
  | cons u rest ih =>
    have hu := h u (List.mem_cons_self u rest)
    have hrest := ih fun url hm => h url (List.mem_cons_of_mem u hm)
    cases hnet : net u with
    | success m => rw [hnet] at hu; simp [FetchOutcome.isSuccess] at hu
    | netError msg => simp [tryGateways, hnet, hrest]
    | httpError status => simp [tryGateways, hnet, hrest]
    | parseError => simp [tryGateways, hnet, hrest]

theorem tryGateways_first_success (net : String → FetchOutcome)
    (pre : List String) (u : String) (rest : List String) (m : IPFSMetadata)
    (hpre : ∀ v ∈ pre, (net v).isSuccess = false) (hu : net u = .success m) :
    tryGateways net (pre ++ u :: rest) = (some m, pre ++ [u]) := by
  induction pre with
  | nil => simp [tryGateways, hu]
  | cons p ps ih =>
    have hp := hpre p (List.mem_cons_self p ps)
    have hps := ih fun v hm => hpre v (List.mem_cons_of_mem p hm)
    cases hnet : net p with
    | success m2 => rw [hnet] at hp; simp [FetchOutcome.isSuccess] at hp
    | netError msg => simp [tryGateways, hnet, hps]
    | httpError status => simp [tryGateways, hnet, hps]
    | parseError => simp [tryGateways, hnet, hps]

/-- Claim C4: for every metadata pointer the fetcher tries an ordered list of
exactly three pairwise-distinct gateway URLs; every candidate whose attempt
fails (network error, non-2xx status, or JSON-parse failure) falls through to
the next candidate; the first success returns the parsed document at once —
later candidates are never requested; all candidates failing yields `none`.
The embedding is a total `Option`-valued function (the source's outer
try/catch): no error is ever raised. -/
theorem fetchIPFSMetadata_gateway_fallback (net : String → FetchOutcome)
    (uri : String) :
    ((gateways (normalizeHash uri)).length = 3 ∧
      (gateways (normalizeHash uri)).Pairwise (fun a b => a ≠ b)) ∧
    (∀ pre u rest m, gateways (normalizeHash uri) = pre ++ u :: rest →
      (∀ v ∈ pre, (net v).isSuccess = false) → net u = .success m →
      fetchIPFSMetadata net uri = (some m, pre ++ [u])) ∧
    ((∀ v ∈ gateways (normalizeHash uri), (net v).isSuccess = false) →
      fetchIPFSMetadata net uri = (none, gateways (normalizeHash uri))) := by
  refine ⟨⟨rfl, gateways_pairwise_ne _⟩, ?_, ?_⟩
  · intro pre u rest m hsplit hpre hu
    unfold fetchIPFSMetadata
    rw [hsplit]
    exact tryGateways_first_success net pre u rest m hpre hu
  · intro hall
    exact tryGateways_all_fail net _ hall

/-- Witness for C4, realizing §8's "gateway fallback" scenario: gateway 1
times out and gateway 2 returns valid JSON, so the fetcher returns gateway 2's
body having requested only gateways 1 and 2 — no request reaches gateway 3. -/
theorem fetchIPFSMetadata_gateway_fallback_witness :
    ((fun url => if url = "https://gateway.pinata.cloud/ipfs/Qm" then
        FetchOutcome.netError "timeout"
      else if url = "https://ipfs.io/ipfs/Qm" then
        FetchOutcome.success ⟨some "Meta", none, none, none, none⟩
      else FetchOutcome.netError "unused")
        "https://ipfs.io/ipfs/Qm" = .success ⟨some "Meta", none, none, none, none⟩) ∧
    fetchIPFSMetadata
      (fun url => if url = "https://gateway.pinata.cloud/ipfs/Qm" then
        FetchOutcome.netError "timeout"
      else if url = "https://ipfs.io/ipfs/Qm" then
        FetchOutcome.success ⟨some "Meta", none, none, none, none⟩
      else FetchOutcome.netError "unused") "Qm" =
      (some ⟨some "Meta", none, none, none, none⟩,
        ["https://gateway.pinata.cloud/ipfs/Qm", "https://ipfs.io/ipfs/Qm"]) := by
  refine ⟨by decide, ?_⟩
  exact (fetchIPFSMetadata_gateway_fallback _ "Qm").2.1
    ["https://gateway.pinata.cloud/ipfs/Qm"] "https://ipfs.io/ipfs/Qm"
    ["https://dweb.link/ipfs/Qm"] ⟨some "Meta", none, none, none, none⟩
    (by decide) (by decide) (by decide)

/-! ## Claim C5 — enrichment degrades to defaults -/

/-- Claim C5: enrichment never fails outright; when the record's skillId is
not yet cached, an empty metadata pointer — or an arbitrary pointer whose
gateway fetch fails (`none`) — yields exactly the default name
`"Skill #<skillId>"`, description `"No description available"`, category
`"General"` and `tags = []`, whatever the other fields of the record are. -/
theorem enrich_defaults_on_missing_metadata (net : String → FetchOutcome)
    (cache : MetadataCache) (raw : RawSkill)
    (hmiss : cacheGet cache (toString raw.fields.skillId) = none) :
    (raw.fields.metadataURI = "" →
      (enrichSkillWithMetadata net cache raw).skill.name =
          "Skill #" ++ toString raw.fields.skillId ∧
      (enrichSkillWithMetadata net cache raw).skill.description =
          "No description available" ∧
      (enrichSkillWithMetadata net cache raw).skill.category = "General" ∧
      (enrichSkillWithMetadata net cache raw).skill.tags = [] ∧
      (enrichSkillWithMetadata net cache raw).fetched = []) ∧
    ((fetchIPFSMetadata net raw.fields.metadataURI).1 = none →
      (enrichSkillWithMetadata net cache raw).skill.name =
          "Skill #" ++ toString raw.fields.skillId ∧
      (enrichSkillWithMetadata net cache raw).skill.description =
          "No description available" ∧
      (enrichSkillWithMetadata net cache raw).skill.category = "General" ∧
      (enrichSkillWithMetadata net cache raw).skill.tags = []) := by
  constructor
  · intro hu
    simp [enrichSkillWithMetadata, hmiss, hu]
  · intro hf
    by_cases hlen : raw.fields.metadataURI.length > 0
    · simp [enrichSkillWithMetadata, hmiss, hlen, hf]
    · simp [enrichSkillWithMetadata, hmiss, hlen]

/-- Witness for C5: the empty cache misses, the all-gateways-down oracle
fails, and a record with `skillId = 5`, empty pointer and arbitrary other
fields enriches to `name = "Skill #5"`, `tags = []`. -/
theorem enrich_defaults_on_missing_metadata_witness :
    cacheGet [] (toString (RawSkill.named ⟨5, "0xc", 10, "", true, 3⟩).fields.skillId)
        = none ∧
    (RawSkill.named ⟨5, "0xc", 10, "", true, 3⟩).fields.metadataURI = "" ∧
    (enrichSkillWithMetadata (fun _ => .netError "down") []
        (.named ⟨5, "0xc", 10, "", true, 3⟩)).skill.name = "Skill #5" ∧
    (enrichSkillWithMetadata (fun _ => .netError "down") []
        (.named ⟨5, "0xc", 10, "", true, 3⟩)).skill.tags = [] := by
  have h := (enrich_defaults_on_missing_metadata (fun _ => .netError "down") []
    (.named ⟨5, "0xc", 10, "", true, 3⟩) (by decide)).1 (by decide)
  exact ⟨by decide, by decide, h.1, h.2.2.2.1⟩

/-! ## Claim C6 — cache hits are served without re-fetching -/

/-- Claim C6: when the record's skillId (in string form) is already a cache
key, `enrichSkillWithMetadata` returns the memoized `SkillWithMetadata`
unchanged, leaves the cache untouched, and starts no metadata fetch — for
every raw record with that skillId, whatever its other registry fields are. -/
theorem enrich_cache_hit_memoized (net : String → FetchOutcome)
    (cache : MetadataCache) (raw : RawSkill) (e : SkillWithMetadata)
    (hhit : cacheGet cache (toString raw.fields.skillId) = some e) :
    enrichSkillWithMetadata net cache raw = ⟨e, cache, []⟩ := by
  simp [enrichSkillWithMetadata, hhit]

/-- Witness for C6: a cached entry for key `"5"` (with `totalCalls = 0`) is
returned as-is — no fetch — for a fresh raw record whose registry fields
differ (`totalCalls = 99`, `isActive = false`, a new metadata pointer). -/
theorem enrich_cache_hit_memoized_witness :
    cacheGet [("5", ⟨5, "0xc", 10, "Qm", true, 0, "Old Name", "Old desc",
        "General", none, []⟩)]
      (toString (RawSkill.tuple ⟨5, "0xd", 20, "QmNew", false, 99⟩).fields.skillId)
      = some ⟨5, "0xc", 10, "Qm", true, 0, "Old Name", "Old desc", "General",
        none, []⟩ ∧
    enrichSkillWithMetadata (fun _ => .success ⟨some "New Name", none, none, none, none⟩)
      [("5", ⟨5, "0xc", 10, "Qm", true, 0, "Old Name", "Old desc", "General",
        none, []⟩)]
      (.tuple ⟨5, "0xd", 20, "QmNew", false, 99⟩) =
      ⟨⟨5, "0xc", 10, "Qm", true, 0, "Old Name", "Old desc", "General", none, []⟩,
        [("5", ⟨5, "0xc", 10, "Qm", true, 0, "Old Name", "Old desc", "General",
          none, []⟩)], []⟩ :=
  ⟨by decide, enrich_cache_hit_memoized _ _ _ _ (by decide)⟩

/-! ## Claim C7 — the Registered Tool Set never shrinks -/

theorem foldl_registeredTools_mem (skills : List SkillWithMetadata)
    (acc : PassAcc) (x : String) :
    x ∈ (skills.foldl processSkill acc).registeredTools ↔
      x ∈ acc.registeredTools ∨
        x ∈ skills.map (fun s => deriveName s.name) := by
  induction skills generalizing acc with
  | nil => simp
  | cons s ss ih =>
    rw [List.foldl_cons, ih]
    by_cases h : deriveName s.name ∈ acc.registeredTools
    · simp only [processSkill, h, if_pos, List.map_cons, List.mem_cons]
      constructor
      · rintro (hx | hx)
        · exact Or.inl hx
        · exact Or.inr (Or.inr hx)
      · rintro (hx | hx | hx)
        · exact Or.inl hx
        · exact Or.inl (hx ▸ h)
        · exact Or.inr hx
    · simp only [processSkill, h, if_neg, not_false_iff, List.map_cons,
        List.mem_cons]
      constructor
      · rintro (hx | hx)
        · rcases hx with hx | hx
          · exact Or.inr (Or.inl hx)
          · exact Or.inl hx
        · exact Or.inr (Or.inr hx)
      · rintro (hx | hx | hx)
        · exact Or.inl (Or.inr hx)
        · exact Or.inl (Or.inl hx)
        · exact Or.inr hx

theorem foldl_discovered_mem (skills : List SkillWithMetadata)
    (acc : PassAcc) (x : String) :
    x ∈ (skills.foldl processSkill acc).discovered ↔
      x ∈ acc.discovered ∨
        (x ∉ acc.registeredTools ∧
          x ∈ skills.map (fun s => deriveName s.name)) := by
  induction skills generalizing acc with
  | nil => simp
  | cons s ss ih =>
    rw [List.foldl_cons, ih]
    by_cases h : deriveName s.name ∈ acc.registeredTools
    · simp only [processSkill, h, if_pos, List.map_cons, List.mem_cons]
      constructor
      · rintro (hx | ⟨hnx, hx⟩)
        · exact Or.inl hx
        · exact Or.inr ⟨hnx, Or.inr hx⟩
      · rintro (hx | ⟨hnx, hx | hx⟩)
        · exact Or.inl hx
        · exact absurd (hx ▸ h) hnx
        · exact Or.inr ⟨hnx, hx⟩
    · simp only [processSkill, h, if_neg, not_false_iff, List.map_cons,
        List.mem_cons, List.mem_append, List.mem_singleton]
      by_cases hx : x = deriveName s.name
      · subst hx; tauto
      · tauto

/-- Claim C7: over a sync pass the Registered Tool Set only grows — every
identifier present before the pass is present after it; an identifier is in
the set afterwards iff it was there before or is the derived name of one of
the pass's active skills; an identifier is logged as newly discovered iff it
was not in the set before the pass and is derived from one of the pass's
active skills; and re-registering an identifier already in the set leaves the
set exactly unchanged. -/
theorem registeredTools_monotone_spec (net : String → FetchOutcome)
    (registryRead : Except String (List RawSkill)) (st : BridgeState) :
    (∀ x, x ∈ st.registeredTools →
      x ∈ (syncSkills net registryRead st).state.registeredTools) ∧
    (∀ x, x ∈ (syncSkills net registryRead st).state.registeredTools ↔
      x ∈ st.registeredTools ∨
        x ∈ (syncSkills net registryRead st).activeSkills.map
          (fun s => deriveName s.name)) ∧
    (∀ x, x ∈ (syncSkills net registryRead st).discovered ↔
      x ∉ st.registeredTools ∧
        x ∈ (syncSkills net registryRead st).activeSkills.map
          (fun s => deriveName s.name)) ∧
    (∀ (acc : PassAcc) (skill : SkillWithMetadata),
      deriveName skill.name ∈ acc.registeredTools →
      (processSkill acc skill).registeredTools = acc.registeredTools) := by
  refine ⟨?_, ?_, ?_, ?_⟩
  · intro x hx
    exact (foldl_registeredTools_mem _ _ x).mpr (Or.inl hx)
  · intro x
    exact foldl_registeredTools_mem _ _ x
  · intro x
    simpa using foldl_discovered_mem (listSkills net registryRead []).1
      ⟨st.server, st.registeredTools, []⟩ x
  · intro acc skill h
    simp [processSkill, h]

/-- Witness for C7: a pass whose registry read fails keeps the previously
known identifier `"uppercase-text"` in the set, and `processSkill` on an
already-known identifier leaves the set unchanged. -/
theorem registeredTools_monotone_spec_witness :
    ("uppercase-text" ∈ ["uppercase-text"]) ∧
    "uppercase-text" ∈ (syncSkills (fun _ => .netError "down") (.error "rpc down")
      ⟨[], ["uppercase-text"], []⟩).state.registeredTools ∧
    (deriveName "Uppercase Text" ∈ ["uppercase-text"]) ∧
    (processSkill ⟨[], ["uppercase-text"], []⟩
      ⟨7, "0xc", 0, "", true, 0, "Uppercase Text", "d", "General", none,
        []⟩).registeredTools = ["uppercase-text"] := by
  refine ⟨by decide, ?_, by decide, ?_⟩
  · exact (registeredTools_monotone_spec (fun _ => .netError "down")
      (.error "rpc down") ⟨[], ["uppercase-text"], []⟩).1
      "uppercase-text" (by decide)
  · exact (registeredTools_monotone_spec (fun _ => .netError "down")
      (.error "rpc down") ⟨[], ["uppercase-text"], []⟩).2.2.2 _ _ (by decide)

/-! ## Claim C1 — a sync pass never throws, and what it returns -/

/-- Claim C1 (amended): a sync pass always runs to completion — the embedding
of `syncSkills` is a total function, every fallible step being caught in the
source — and when the registry read fails the pass observes an empty
active-skill list, registers nothing, logs no discovery, and leaves the
server's tool map (all earlier bindings included) and `registeredTools`
exactly as they were; but the pass returns no `{ registeredCount,
activeCount }` record: the source function ends without a `return`, so every
pass resolves to `undefined` (`retVal = none`), the active count being
reported only through a log line. -/
theorem syncSkills_read_failure_preserves_registrations
    (net : String → FetchOutcome) (st : BridgeState) (e : String) :
    (syncSkills net (.error e) st).activeSkills = [] ∧
    (syncSkills net (.error e) st).state.server = st.server ∧
    (syncSkills net (.error e) st).state.registeredTools = st.registeredTools ∧
    (syncSkills net (.error e) st).discovered = [] ∧
    (∀ registryRead, (syncSkills net registryRead st).retVal = none) := by
  refine ⟨rfl, rfl, rfl, rfl, fun _ => rfl⟩

/-- Counterexample to C1 as stated: a completed pass (here over a registry
read that succeeds with an empty list) does not return a
`{ registeredCount, activeCount }` record — its value is `undefined`. -/
theorem syncSkills_retVal_none_cex :
    (syncSkills (fun _ => .netError "down") (.ok []) initBridgeState).retVal
      = none := rfl

/-! ## Claim C2 — the timer runs sync passes concurrently -/

/-- Claim C2 fails on the code: `setInterval(syncSkills, 300000)` fires the
async `syncSkills` without awaiting it and `syncSkills` checks no in-flight
guard, so (first clause) a timer tick is enabled in every scheduler state —
it is never skipped or queued; hence (second clause) a state with two passes
simultaneously in flight is reachable, and (third clause) so is a history in
which pass 1's cache-clear executes between pass 0's cache-clear and pass 0's
cache-populate — exactly the interleaving the claim says never happens. -/
theorem setInterval_unguarded_interleaving :
    (∀ s : SchedState, SchedStep s
      ⟨s.nextId :: s.inFlight, s.nextId + 1,
        s.history ++ [.clearCache s.nextId]⟩) ∧
    (∃ s, SchedReachable s ∧ s.inFlight.length = 2) ∧
    (∃ s, SchedReachable s ∧ s.history =
      [.clearCache 0, .clearCache 1, .populate 0, .populate 1]) := by
  have h01 : SchedStep initSched ⟨[0], 1, [.clearCache 0]⟩ :=
    SchedStep.tick initSched
  have h12 : SchedStep ⟨[0], 1, [.clearCache 0]⟩
      ⟨[1, 0], 2, [.clearCache 0, .clearCache 1]⟩ :=
    SchedStep.tick _
  have h23 : SchedStep ⟨[1, 0], 2, [.clearCache 0, .clearCache 1]⟩
      ⟨[1], 2, [.clearCache 0, .clearCache 1, .populate 0]⟩ :=
    SchedStep.finish _ 0 (by decide)
  have h34 : SchedStep ⟨[1], 2, [.clearCache 0, .clearCache 1, .populate 0]⟩
      ⟨[], 2, [.clearCache 0, .clearCache 1, .populate 0, .populate 1]⟩ :=
    SchedStep.finish _ 1 (by decide)
  have r2 : SchedReachable ⟨[1, 0], 2, [.clearCache 0, .clearCache 1]⟩ :=
    Relation.ReflTransGen.head h01 (Relation.ReflTransGen.single h12)
  refine ⟨fun s => SchedStep.tick s, ⟨_, r2, rfl⟩,
    ⟨⟨[], 2, [.clearCache 0, .clearCache 1, .populate 0, .populate 1]⟩, ?_, rfl⟩⟩
  exact Relation.ReflTransGen.tail (Relation.ReflTransGen.tail r2 h23) h34

/-! ## Claim C8 — the invocation handler's error envelope -/

theorem strContains_intro (a pat b s : String) (h : s = a ++ pat ++ b) :
    strContains s pat :=
  ⟨a.data, b.data, by rw [h]; simp [String.data_append]⟩

theorem strContains_append_left (s t pat : String) (h : strContains t pat) :
    strContains (s ++ t) pat := by
  obtain ⟨a, b, hab⟩ := h
  exact ⟨s.data ++ a, b, by simp [String.data_append, hab]⟩

theorem invocationHandler_err (apiUrlEnv : Option String)
    (buyerAccount : String) (skill : SkillWithMetadata) (input : String)
    (backend : PostBody → BackendOutcome) (outcome : BackendOutcome)
    (hout : backend (handlerPost buyerAccount skill input) = outcome)
    (hne : outcome.isOk = false) :
    invocationHandler apiUrlEnv buyerAccount skill input backend =
      { content := [⟨"text",
          "Error executing skill \"" ++ skill.name ++ "\": " ++
            classifyMessage apiUrlEnv outcome⟩]
        isError := some true } := by
  unfold invocationHandler
  rw [hout]
  cases outcome with
  | ok pretty => simp [BackendOutcome.isOk] at hne
  | connRefused => rfl
  | responseError errBody message => rfl
  | otherError message => rfl
  | thrownString s => rfl
  | thrownOther j => rfl

/-- Claim C8: the invocation handler is total (no exception escapes the
embedding) and always yields a single-text-element envelope; on any backend
failure the envelope is error-flagged and its text contains the classified
message; a connection-refused failure under
`SKILLFORGE_API_URL=http://localhost:3000` yields text mentioning both
`"unreachable"` and `"localhost:3000"`; a structured `{error: string}`
response body surfaces exactly that string, and any other failure surfaces
its message (or stringified form). -/
theorem invocationHandler_error_envelope (apiUrlEnv : Option String)
    (buyerAccount : String) (skill : SkillWithMetadata) (input : String)
    (backend : PostBody → BackendOutcome) :
    (∃ t, (invocationHandler apiUrlEnv buyerAccount skill input backend).content
        = [⟨"text", t⟩]) ∧
    ((backend (handlerPost buyerAccount skill input)).isOk = false →
      (invocationHandler apiUrlEnv buyerAccount skill input backend).isError
          = some true ∧
      strContains
        (resultText (invocationHandler apiUrlEnv buyerAccount skill input backend))
        (classifyMessage apiUrlEnv (backend (handlerPost buyerAccount skill input)))) ∧
    (backend (handlerPost buyerAccount skill input) = .connRefused →
      apiUrlEnv = some "http://localhost:3000" →
      strContains
        (resultText (invocationHandler apiUrlEnv buyerAccount skill input backend))
        "unreachable" ∧
      strContains
        (resultText (invocationHandler apiUrlEnv buyerAccount skill input backend))
        "localhost:3000") ∧
    (∀ errBody message,
      classifyMessage apiUrlEnv (.responseError errBody message) = errBody) ∧
    (∀ message, classifyMessage apiUrlEnv (.otherError message) = message) ∧
    (∀ s, classifyMessage apiUrlEnv (.thrownString s) = s) ∧
    (∀ j, classifyMessage apiUrlEnv (.thrownOther j) = j) := by
  refine ⟨?_, ?_, ?_, fun _ _ => rfl, fun _ => rfl, fun _ => rfl, fun _ => rfl⟩
  · unfold invocationHandler
    cases backend (handlerPost buyerAccount skill input) <;> exact ⟨_, rfl⟩
  · intro hfail
    rw [invocationHandler_err apiUrlEnv buyerAccount skill input backend
      (backend (handlerPost buyerAccount skill input)) rfl hfail]
    refine ⟨rfl, ?_⟩
    exact strContains_intro
      ("Error executing skill \"" ++ skill.name ++ "\": ")
      (classifyMessage apiUrlEnv (backend (handlerPost buyerAccount skill input)))
      "" _ (by rw [String.append_empty]; rfl)
  · intro hout henv
    subst henv
    rw [invocationHandler_err (some "http://localhost:3000") buyerAccount skill
      input backend .connRefused hout rfl]
    constructor
    · exact strContains_append_left
        ("Error executing skill \"" ++ skill.name ++ "\": ")
        (classifyMessage (some "http://localhost:3000") .connRefused)
        "unreachable"
        ⟨"Backend server ".data,
         " at http://localhost:3000. Ensure the SkillForge app is running.".data,
         by decide⟩
    · exact strContains_append_left
        ("Error executing skill \"" ++ skill.name ++ "\": ")
        (classifyMessage (some "http://localhost:3000") .connRefused)
        "localhost:3000"
        ⟨"Backend server unreachable at http://".data,
         ". Ensure the SkillForge app is running.".data,
         by decide⟩

/-- Witness for C8: a connection-refused backend with
`SKILLFORGE_API_URL=http://localhost:3000` produces an error-flagged
envelope whose text mentions `"unreachable"` and `"localhost:3000"`. -/
theorem invocationHandler_error_envelope_witness :
    ((fun _ : PostBody => BackendOutcome.connRefused)
        (handlerPost "0xBridge"
          ⟨7, "0xc", 0, "", true, 0, "Uppercase Text", "d", "General", none, []⟩
          "monad is fast")).isOk = false ∧
    (invocationHandler (some "http://localhost:3000") "0xBridge"
        ⟨7, "0xc", 0, "", true, 0, "Uppercase Text", "d", "General", none, []⟩
        "monad is fast" (fun _ => .connRefused)).isError = some true ∧
    strContains
      (resultText (invocationHandler (some "http://localhost:3000") "0xBridge"
        ⟨7, "0xc", 0, "", true, 0, "Uppercase Text", "d", "General", none, []⟩
        "monad is fast" (fun _ => .connRefused)))
      "unreachable" ∧
    strContains
      (resultText (invocationHandler (some "http://localhost:3000") "0xBridge"
        ⟨7, "0xc", 0, "", true, 0, "Uppercase Text", "d", "General", none, []⟩
        "monad is fast" (fun _ => .connRefused)))
      "localhost:3000" := by
  have h := invocationHandler_error_envelope (some "http://localhost:3000")
    "0xBridge" ⟨7, "0xc", 0, "", true, 0, "Uppercase Text", "d", "General",
      none, []⟩ "monad is fast" (fun _ => .connRefused)
  exact ⟨rfl, (h.2.1 rfl).1, (h.2.2.1 rfl rfl).1, (h.2.2.1 rfl rfl).2⟩

/-! ## Claim C9 — the posted invocation body -/

/-- Claim C9 (amended): for every registered skill and invocation input the
handler posts a body whose `input` is the call-time input, whose `buyer` is
the bridge's own account, and whose `skillId` is `Number(skill.skillId)` —
which equals the bound skill's registry skillId exactly whenever that
identifier is at most `2 ^ 53`, while larger identifiers are rounded to the
nearest binary64 value by the `Number()` conversion; the enrichment-side
extraction itself (from either registry decoding shape) carries the
identifier exactly. -/
theorem handlerPost_body_exact_amended (buyerAccount : String)
    (skill : SkillWithMetadata) (input : String) :
    (handlerPost buyerAccount skill input).input = input ∧
    (handlerPost buyerAccount skill input).buyer = buyerAccount ∧
    (handlerPost buyerAccount skill input).skillId = jsNumber skill.skillId ∧
    (skill.skillId ≤ 2 ^ 53 →
      (handlerPost buyerAccount skill input).skillId = skill.skillId) ∧
    (∀ f : SkillRegistryData,
      (RawSkill.named f).fields.skillId = f.skillId ∧
      (RawSkill.tuple f).fields.skillId = f.skillId) := by
  refine ⟨rfl, rfl, rfl, ?_, fun f => ⟨rfl, rfl⟩⟩
  intro hle
  show jsNumber skill.skillId = skill.skillId
  unfold jsNumber
  rw [if_pos hle]

/-- Witness for C9 (amended): for the end-to-end skill of §8
(`skillId = 7 ≤ 2 ^ 53`) the posted body is exactly
`{ skillId: 7, input: "monad is fast", buyer: "0xBridge" }`. -/
theorem handlerPost_body_exact_amended_witness :
    (7 : Nat) ≤ 2 ^ 53 ∧
    (handlerPost "0xBridge"
      ⟨7, "0xc", 0, "", true, 0, "Uppercase Text", "d", "General", none, []⟩
      "monad is fast").skillId = 7 ∧
    (handlerPost "0xBridge"
      ⟨7, "0xc", 0, "", true, 0, "Uppercase Text", "d", "General", none, []⟩
      "monad is fast").input = "monad is fast" ∧
    (handlerPost "0xBridge"
      ⟨7, "0xc", 0, "", true, 0, "Uppercase Text", "d", "General", none, []⟩
      "monad is fast").buyer = "0xBridge" := by
  have h := handlerPost_body_exact_amended "0xBridge"
    ⟨7, "0xc", 0, "", true, 0, "Uppercase Text", "d", "General", none, []⟩
    "monad is fast"
  exact ⟨by decide, h.2.2.2.1 (by decide), h.1, h.2.1⟩

/-- Counterexample to C9 as stated: the registry can return any `uint256`
identifier, but `Number(skill.skillId)` (src/index.ts line 53) is a binary64
conversion — for `skillId = 2 ^ 53 + 1 = 9007199254740993` the posted
`skillId` is `9007199254740992`, not the bound skill's registry skillId. -/
theorem handlerPost_skillId_precision_cex :
    (handlerPost "0xBridge"
      ⟨9007199254740993, "0xc", 0, "", true, 0, "Big", "d", "General", none, []⟩
      "in").skillId = 9007199254740992 ∧
    (handlerPost "0xBridge"
      ⟨9007199254740993, "0xc", 0, "", true, 0, "Big", "d", "General", none, []⟩
      "in").skillId ≠ 9007199254740993 :=
  ⟨by decide, by decide⟩

end SkillForge
